import Mathlib

/-!
Shallow embedding of the dependency-driven evaluation engine in
src/src/evaluation.h.

Modelling decisions, each traceable to the source:
* C++ double values are modelled by Val: either the distinguished NaN
  value or an exact integer.  The source uses nan("") as the sentinel for
  an absent cached value and tests it with std::isnan; NaN is therefore a
  first-class element of the value domain.  Only integer-valued doubles
  appear in the claims, so the numeric part is Int.
* Every EvalNode carries a mutable d_cachedValue.  For VariableNode
  objects that slot is shared state (variables are aliased between
  expressions through shared_ptr), so variable state lives in a heap
  indexed by variable ids.  Operator, constant and expression nodes keep
  their d_cachedValue slot inline in the tree; this is faithful because
  eval() never reads or writes any cache below the node it is called on
  (only calc() writes, and only its own slot), so aliasing of non-variable
  nodes is observationally irrelevant to the claims.
* eval() in the source performs no memoization and no cache writes; it is
  a pure computation over the heap, returning a value or throwing
  std::runtime_error("Variable not set").  calc() is the memoizing entry
  point: it recomputes when the cache is NaN or needCalc() holds, and
  writes exactly its own cache slot.
* The evaluators additionally return a natural number counting how many
  operator functions were applied during the call.  This instrumentation
  makes recomputation versus cache reuse observable; the value/error
  component mirrors the source exactly.
-/

inductive Val where
  | nan : Val
  | num : Int → Val
deriving DecidableEq, Repr

def Val.isnan : Val → Bool
  | .nan => true
  | .num _ => false

/-- Errors the engine can raise: the runtime error thrown by
VariableNode::eval when the cached value is NaN, the runtime error thrown
by EvaluationContext::calc for an unregistered target name, and a marker
for dereferencing a null shared_ptr (undefined behaviour in the source,
reachable through the default-inserting map accessors). -/
inductive Err where
  | notSet : Err
  | unknownExpression : Err
  | nullDeref : Err
deriving DecidableEq, Repr

/-- The per-object state of a VariableNode: the inherited d_cachedValue
slot and the d_needCalc flag.  A freshly constructed variable has a NaN
cache and d_needCalc = true. -/
structure VarState where
  cached : Val
  needC : Bool
deriving DecidableEq, Repr

def Heap := Nat → VarState

/-- State of a freshly constructed VariableNode: d_cachedValue = nan(""),
d_needCalc = true. -/
def freshHeap : Heap := fun _ => ⟨Val.nan, true⟩

/-- VariableNode::set — stores the value and marks the variable dirty. -/
def setVar (i : Nat) (v : Val) (h : Heap) : Heap :=
  fun j => if j = i then ⟨v, true⟩ else h j

/-- The protected base-class write cacheValue(value), as performed by
EvalNode::calc on a VariableNode: the dirty flag is untouched. -/
def setCachedVar (i : Nat) (v : Val) (h : Heap) : Heap :=
  fun j => if j = i then ⟨v, (h j).needC⟩ else h j

/-- VariableNode::cache — marks the variable clean, value untouched. -/
def freezeVar (i : Nat) (h : Heap) : Heap :=
  fun j => if j = i then ⟨(h j).cached, false⟩ else h j

/-- The node graph.  Each non-variable constructor carries its inline
d_cachedValue slot; variables are references into the heap.  Operator
functions are arbitrary, mirroring std::function. -/
inductive Node where
  | const : Val → Node
  | var : Nat → Node
  | unary : Val → (Val → Val) → Node → Node
  | binary : Val → (Val → Val → Val) → Node → Node → Node
  | expr : Val → String → Node → Node

/-- ConstantNode constructor: the cache is primed with the value. -/
def mkConst (v : Val) : Node := .const v

/-- UnaryOperatorNode constructor: cache starts as NaN. -/
def mkUnary (f : Val → Val) (ch : Node) : Node := .unary .nan f ch

/-- BinaryOperatorNode constructor: cache starts as NaN. -/
def mkBinary (f : Val → Val → Val) (l r : Node) : Node := .binary .nan f l r

/-- ExpressionNode constructor: cache starts as NaN. -/
def mkExpr (nm : String) (ch : Node) : Node := .expr .nan nm ch

/-- The d_cachedValue slot of a node (for a variable, read from the
heap). -/
def cachedOf : Node → Heap → Val
  | .const c, _ => c
  | .var i, h => (h i).cached
  | .unary c _ _, _ => c
  | .binary c _ _ _, _ => c
  | .expr c _ _, _ => c

/-- needCalc(), per variant, exactly as in the source: false for
ConstantNode, the d_needCalc flag for VariableNode, the operand's
dirtiness for UnaryOperatorNode and ExpressionNode, and the OR of the two
operands' dirtiness for BinaryOperatorNode.  It reads state and never
writes it (const-qualified in the source). -/
def needCalc : Node → Heap → Bool
  | .const _, _ => false
  | .var i, h => (h i).needC
  | .unary _ _ ch, h => needCalc ch h
  | .binary _ _ l r, h => needCalc l h || needCalc r h
  | .expr _ _ ch, h => needCalc ch h

/-- eval(), per variant, exactly as in the source; the second component
counts operator-function applications.  ConstantNode returns its cache;
VariableNode throws when the cache is NaN; operators evaluate their
operands by calling eval() on them directly (not calc()) and apply the
function; ExpressionNode delegates to its operand's eval().  No cache is
written. -/
def evalC : Node → Heap → Except Err Val × Nat
  | .const c, _ => (.ok c, 0)
  | .var i, h =>
      if (h i).cached.isnan then (.error .notSet, 0) else (.ok (h i).cached, 0)
  | .unary _ f ch, h =>
      match evalC ch h with
      | (.ok v, c) => (.ok (f v), c + 1)
      | (.error e, c) => (.error e, c)
  | .binary _ f l r, h =>
      match evalC l h with
      | (.ok a, c1) =>
          match evalC r h with
          | (.ok b, c2) => (.ok (f a b), c1 + c2 + 1)
          | (.error e, c2) => (.error e, c1 + c2)
      | (.error e, c1) => (.error e, c1)
  | .expr _ _ ch, h => evalC ch h

/-- Writing the node's own d_cachedValue slot, as done at the end of a
recomputing EvalNode::calc.  For a variable the write goes to the heap;
for all other variants it replaces the inline slot. -/
def withCache : Node → Val → Heap → Node × Heap
  | .const _, v, h => (.const v, h)
  | .var i, v, h => (.var i, setCachedVar i v h)
  | .unary _ f ch, v, h => (.unary v f ch, h)
  | .binary _ f l r, v, h => (.binary v f l r, h)
  | .expr _ nm ch, v, h => (.expr v nm ch, h)

/-- EvalNode::calc, the memoizing entry point: if the cached value is NaN
or needCalc() holds, run eval(), store the result in this node's own
cache slot and return it; otherwise return the cached value, touching
nothing and applying no function (count 0). -/
def calcC (n : Node) (h : Heap) : Except Err (Val × Node × Heap) × Nat :=
  if (cachedOf n h).isnan || needCalc n h then
    match evalC n h with
    | (.ok v, c) => (.ok (v, withCache n v h), c)
    | (.error e, c) => (.error e, c)
  else
    (.ok (cachedOf n h, n, h), 0)

/-- The memoizing-descent evaluator that the spec's words describe
(section 4.1/4.4-4.5: evaluate() is the single entry point all callers
must use, and operands apply their own memoization during the recursive
descent).  It recomputes by calling itself — the memoizing entry point —
on each operand, so a clean cached operand contributes no function
applications.  It exists only to be compared with calcC, the evaluator
actually implemented by the source, where operators recurse through raw
eval(). -/
def calcSpecC (n : Node) (h : Heap) : Except Err (Val × Node × Heap) × Nat :=
  if (cachedOf n h).isnan || needCalc n h then
    match n with
    | .const c => (.ok (c, .const c, h), 0)
    | .var i =>
        if (h i).cached.isnan then (.error .notSet, 0)
        else (.ok ((h i).cached, .var i, setCachedVar i (h i).cached h), 0)
    | .unary _ f ch =>
        match calcSpecC ch h with
        | (.ok (v, ch', h'), c) => (.ok (f v, .unary (f v) f ch', h'), c + 1)
        | (.error e, c) => (.error e, c)
    | .binary _ f l r =>
        match calcSpecC l h with
        | (.ok (a, l', h1), c1) =>
            match calcSpecC r h1 with
            | (.ok (b, r', h2), c2) =>
                (.ok (f a b, .binary (f a b) f l' r', h2), c1 + c2 + 1)
            | (.error e, c2) => (.error e, c1 + c2)
        | (.error e, c1) => (.error e, c1)
    | .expr _ nm ch =>
        match calcSpecC ch h with
        | (.ok (v, ch', h'), c) => (.ok (v, .expr v nm ch', h'), c)
        | (.error e, c) => (.error e, c)
  else
    (.ok (cachedOf n h, n, h), 0)

/-- The operand subgraph contains a variable whose cached value is NaN
(in particular any variable that was never set). -/
def containsUnset : Node → Heap → Bool
  | .const _, _ => false
  | .var i, h => (h i).cached.isnan
  | .unary _ _ ch, h => containsUnset ch h
  | .binary _ _ l r, h => containsUnset l h || containsUnset r h
  | .expr _ _ ch, h => containsUnset ch h

/-- Ids of the variables occurring in a node's operand subgraph. -/
def varsIn : Node → List Nat
  | .const _ => []
  | .var i => [i]
  | .unary _ _ ch => varsIn ch
  | .binary _ _ l r => varsIn l ++ varsIn r
  | .expr _ _ ch => varsIn ch

/-- Association-list lookup, standing in for std::map::find.  The stored
value is an Option Nat: an index into the node store, or none for a null
shared_ptr (the entry operator square-brackets default-inserts). -/
def lookupA (m : List (String × Option Nat)) (k : String) : Option (Option Nat) :=
  match m with
  | [] => none
  | (k', v) :: rest => if k' = k then some v else lookupA rest k

/-- Association-list store, standing in for assignment through std::map
operator square-brackets: overwrite the existing entry or insert a new
one.  (std::map keeps keys sorted; an association list keeps insertion
order.  Both give each key one entry and the same lookup results, and the
only whole-map iteration in the source — the freeze loop — is
order-insensitive, so the difference is unobservable.) -/
def upsertA (m : List (String × Option Nat)) (k : String) (v : Option Nat) :
    List (String × Option Nat) :=
  match m with
  | [] => [(k, v)]
  | (k', v') :: rest =>
      if k' = k then (k, v) :: rest else (k', v') :: upsertA rest k v

/-- EvaluationContext: the name-to-ExpressionNode map, the
name-to-VariableNode map, and the ordered evaluation vector
d_expressions.  Expression objects live in exprStore (their heap); both
the map and the vector refer to them by index, modelling the shared
pointers to the same mutable objects. -/
structure Ctx where
  exprMap : List (String × Option Nat)
  varMap : List (String × Option Nat)
  exprList : List Nat
  exprStore : List Node

def emptyCtx : Ctx := ⟨[], [], [], []⟩

/-- EvaluationContext::isKnownExpression. -/
def isKnownExpression (ctx : Ctx) (nm : String) : Bool :=
  (lookupA ctx.exprMap nm).isSome

/-- EvaluationContext::isKnownVariable. -/
def isKnownVariable (ctx : Ctx) (nm : String) : Bool :=
  (lookupA ctx.varMap nm).isSome

/-- EvaluationContext::getExpression — reads the map through operator
square-brackets, which default-inserts a null entry for an unknown name
and returns it. -/
def getExpression (ctx : Ctx) (nm : String) : Option Nat × Ctx :=
  match lookupA ctx.exprMap nm with
  | some p => (p, ctx)
  | none => (none, { ctx with exprMap := ctx.exprMap ++ [(nm, none)] })

/-- EvaluationContext::getVariable — same default-inserting read. -/
def getVariable (ctx : Ctx) (nm : String) : Option Nat × Ctx :=
  match lookupA ctx.varMap nm with
  | some p => (p, ctx)
  | none => (none, { ctx with varMap := ctx.varMap ++ [(nm, none)] })

/-- EvaluationContext::addExpression — stores the node, points the map
entry at it (overwriting any previous entry for the name) and appends it
to the ordered evaluation vector. -/
def addExpression (nm : String) (e : Node) (ctx : Ctx) : Ctx :=
  { ctx with
    exprMap := upsertA ctx.exprMap nm (some ctx.exprStore.length)
    exprList := ctx.exprList ++ [ctx.exprStore.length]
    exprStore := ctx.exprStore ++ [e] }

/-- EvaluationContext::addVariable — stores the name-to-variable mapping
(the variable object itself lives in the heap under id i). -/
def addVariable (nm : String) (i : Nat) (ctx : Ctx) : Ctx :=
  { ctx with varMap := upsertA ctx.varMap nm (some i) }

/-- The first loop of EvaluationContext::calc: call calc() on every node
of d_expressions in order.  A thrown error stops the loop and propagates;
mutations made before the throw persist. -/
def evalAllGo : List Nat → List Node → Heap → Option Err × List Node × Heap
  | [], store, h => (none, store, h)
  | i :: rest, store, h =>
      match calcC (store.getD i (Node.const Val.nan)) h with
      | (.ok (_, n', h'), _) => evalAllGo rest (store.set i n') h'
      | (.error e, _) => (some e, store, h)

/-- The second loop of EvaluationContext::calc: call cache() on every
variable in d_variableMap.  A null entry (possible after a
default-inserting getVariable) would be dereferenced — undefined
behaviour in the source, modelled as a halting nullDeref error. -/
def freezeAllGo : List (String × Option Nat) → Heap → Option Err × Heap
  | [], h => (none, h)
  | (_, some i) :: rest, h => freezeAllGo rest (freezeVar i h)
  | (_, none) :: _, h => (some .nullDeref, h)

/-- EvaluationContext::calc: evaluate every registered expression in
registration order, then freeze every registered variable, then throw
"Not found" if the target name is absent from the map, else return calc()
on the mapped node.  The Nat is the function-application count of that
final calc() call alone.  The returned context and heap reflect all
mutations made before a throw. -/
def ctxCalc (ctx : Ctx) (h : Heap) (nm : String) :
    Except Err Val × Ctx × Heap × Nat :=
  match evalAllGo ctx.exprList ctx.exprStore h with
  | (some e, store1, h1) => (.error e, { ctx with exprStore := store1 }, h1, 0)
  | (none, store1, h1) =>
      match freezeAllGo ctx.varMap h1 with
      | (some e, h2) => (.error e, { ctx with exprStore := store1 }, h2, 0)
      | (none, h2) =>
          match lookupA ctx.exprMap nm with
          | none =>
              (.error .unknownExpression, { ctx with exprStore := store1 }, h2, 0)
          | some none =>
              (.error .nullDeref, { ctx with exprStore := store1 }, h2, 0)
          | some (some i) =>
              match calcC (store1.getD i (Node.const Val.nan)) h2 with
              | (.ok (v, n', h3), c) =>
                  (.ok v, { ctx with exprStore := store1.set i n' }, h3, c)
              | (.error e, c) =>
                  (.error e, { ctx with exprStore := store1 }, h2, c)

/-- Doubling, a concrete unary operator function; NaN propagates as in
IEEE arithmetic. -/
def dbl : Val → Val
  | .num a => .num (2 * a)
  | .nan => .nan

/-- Addition, a concrete binary operator function; NaN propagates. -/
def addFn : Val → Val → Val
  | .num a, .num b => .num (a + b)
  | _, _ => .nan

/-- Multiplication, a concrete binary operator function; NaN propagates. -/
def mulFn : Val → Val → Val
  | .num a, .num b => .num (a * b)
  | _, _ => .nan

/-- Step 1 of EvaluationContext::calc: the evaluate-every-expression
loop. -/
def step1 (ctx : Ctx) (h : Heap) : Option Err × List Node × Heap :=
  evalAllGo ctx.exprList ctx.exprStore h

/-- Step 2 of EvaluationContext::calc: the freeze-every-variable loop,
run on the heap left by step 1. -/
def step2 (ctx : Ctx) (h : Heap) : Option Err × Heap :=
  freezeAllGo ctx.varMap (step1 ctx h).2.2

/-- The target expression object as it stands after step 1. -/
def targetNode (ctx : Ctx) (h : Heap) (i : Nat) : Node :=
  (step1 ctx h).2.1.getD i (Node.const Val.nan)

/-- Sequencing helper: continue an evaluation loop with further indices
unless it already threw. -/
def seqEval (z : Option Err × List Node × Heap) (l2 : List Nat) :
    Option Err × List Node × Heap :=
  match z with
  | (none, s, h1) => evalAllGo l2 s h1
  | (some e, s, h1) => (some e, s, h1)

/-- The only error the recursive eval() can produce is the
variable-not-set runtime error. -/
theorem evalC_error_eq {n : Node} {h : Heap} {e : Err} {c : Nat}
    (hec : evalC n h = (.error e, c)) : e = Err.notSet := by
  induction n generalizing e c with
  | const cv => simp [evalC] at hec
  | var i =>
      by_cases hb : (h i).cached.isnan
      · simp [evalC, hb] at hec
        exact hec.1.symm
      · simp [evalC, hb] at hec
  | unary cv f ch ih =>
      simp only [evalC] at hec
      rcases hch : evalC ch h with ⟨r, cnt⟩
      rw [hch] at hec
      cases r with
      | ok v => simp at hec
      | error e' =>
          simp at hec
          exact hec.1 ▸ ih hch
  | binary cv f l r ihl ihr =>
      simp only [evalC] at hec
      rcases hl : evalC l h with ⟨rl, cl⟩
      rw [hl] at hec
      cases rl with
      | ok a =>
          rcases hr : evalC r h with ⟨rr, cr⟩
          rw [hr] at hec
          cases rr with
          | ok b => simp at hec
          | error e' =>
              simp at hec
              exact hec.1 ▸ ihr hr
      | error e' =>
          simp at hec
          exact hec.1 ▸ ihl hl
  | expr cv nm ch ih =>
      simp only [evalC] at hec
      exact ih hec

/-- Evaluating any node whose operand subgraph contains an unset (NaN)
variable fails; by the previous lemma the failure is the NotSet error.
The failure propagates to the root of the call: in the source the throw
unwinds every ancestor eval() frame. -/
theorem evalC_unset {n : Node} {h : Heap} (hc : containsUnset n h = true) :
    (evalC n h).1 = Except.error Err.notSet := by
  induction n with
  | const cv => simp [containsUnset] at hc
  | var i =>
      simp only [containsUnset] at hc
      simp [evalC, hc]
  | unary cv f ch ih =>
      simp only [containsUnset] at hc
      simp only [evalC]
      rcases hch : evalC ch h with ⟨r, cnt⟩
      have := ih hc
      rw [hch] at this
      cases r with
      | ok v => simp at this
      | error e' => simp at this; simp [this]
  | binary cv f l r ihl ihr =>
      simp only [containsUnset, Bool.or_eq_true] at hc
      simp only [evalC]
      rcases hl : evalC l h with ⟨rl, cl⟩
      cases rl with
      | ok a =>
          cases hc with
          | inl hcl =>
              have := ihl hcl
              rw [hl] at this
              simp at this
          | inr hcr =>
              have := ihr hcr
              rcases hr : evalC r h with ⟨rr, cr⟩
              rw [hr] at this
              cases rr with
              | ok b => simp at this
              | error e' => simp at this; simp [this]
      | error e' =>
          have : e' = Err.notSet := evalC_error_eq hl
          simp [this]
  | expr cv nm ch ih =>
      simp only [containsUnset] at hc
      simp only [evalC]
      exact ih hc

/-- After the recomputing branch of calc() writes the freshly computed
value, reading the node's cache slot back yields exactly that value. -/
theorem cachedOf_withCache (n : Node) (v : Val) (h : Heap) :
    cachedOf (withCache n v h).1 (withCache n v h).2 = v := by
  cases n with
  | const c => rfl
  | var i => simp [withCache, cachedOf, setCachedVar]
  | unary c f ch => rfl
  | binary c f l r => rfl
  | expr c nm ch => rfl

/-- A calc() call never changes any variable's dirty flag: the hit branch
touches nothing and the recompute branch writes only a cached value. -/
theorem calcC_preserves_needC {n : Node} {h : Heap} {v : Val} {n' : Node}
    {h' : Heap} {c : Nat} (hc : calcC n h = (.ok (v, n', h'), c)) :
    ∀ j, (h' j).needC = (h j).needC := by
  intro j
  unfold calcC at hc
  by_cases hcond : ((cachedOf n h).isnan || needCalc n h) = true
  · rw [if_pos hcond] at hc
    rcases he : evalC n h with ⟨r, cnt⟩
    rw [he] at hc
    cases r with
    | ok w =>
        simp [Prod.mk.injEq] at hc
        have hh : h' = (withCache n w h).2 := by rw [hc.1.2]
        rw [hh]
        cases n with
        | const cv => rfl
        | var i => simp [withCache, setCachedVar]; split <;> rfl
        | unary cv f ch => rfl
        | binary cv f l r => rfl
        | expr cv nm ch => rfl
    | error e => simp at hc
  · rw [if_neg hcond] at hc
    simp at hc
    rw [hc.1.2.2]

/-- The freeze loop never changes a cached value. -/
theorem freezeAllGo_cached (m : List (String × Option Nat)) (h : Heap)
    (j : Nat) : ((freezeAllGo m h).2 j).cached = (h j).cached := by
  induction m generalizing h with
  | nil => rfl
  | cons p rest ih =>
      rcases p with ⟨nm, ov⟩
      cases ov with
      | none => rfl
      | some i =>
          simp only [freezeAllGo]
          rw [ih]
          simp only [freezeVar]
          split <;> rfl

/-- The freeze loop never dirties a variable: a clean flag stays clean. -/
theorem freezeAllGo_keeps_clean (m : List (String × Option Nat)) (h : Heap)
    (j : Nat) (hcl : (h j).needC = false) :
    ((freezeAllGo m h).2 j).needC = false := by
  induction m generalizing h with
  | nil => exact hcl
  | cons p rest ih =>
      rcases p with ⟨nm, ov⟩
      cases ov with
      | none => exact hcl
      | some i =>
          simp only [freezeAllGo]
          apply ih
          simp only [freezeVar]
          split
          · rfl
          · exact hcl

/-- When the freeze loop completes without hitting a null entry, every
variable registered in the map comes out clean. -/
theorem freezeAllGo_clean (m : List (String × Option Nat)) (h : Heap)
    (h2 : Heap) (j : Nat) (hok : (freezeAllGo m h).2 = h2)
    (hnoerr : (freezeAllGo m h).1 = none)
    (hj : m.any (fun p => p.2 == some j) = true) : (h2 j).needC = false := by
  induction m generalizing h with
  | nil => simp at hj
  | cons p rest ih =>
      rcases p with ⟨nm, ov⟩
      cases ov with
      | none => simp [freezeAllGo] at hnoerr
      | some i =>
          simp only [freezeAllGo] at hok hnoerr
          simp only [List.any_cons, Bool.or_eq_true] at hj
          cases hj with
          | inl hij =>
              have hi : i = j := by
                have := of_decide_eq_true hij
                exact (Option.some.injEq i j ▸ this)
              subst hi
              rw [← hok]
              apply freezeAllGo_keeps_clean
              simp [freezeVar]
          | inr hrest => exact ih (freezeVar i h) hok hnoerr hrest

/-- A node all of whose variables are clean does not need recalculation:
needCalc is derived on demand from the operand chain. -/
theorem needCalc_false_of_clean (n : Node) (h : Heap)
    (hcl : ∀ j ∈ varsIn n, (h j).needC = false) : needCalc n h = false := by
  induction n with
  | const c => rfl
  | var i => exact hcl i (by simp [varsIn])
  | unary c f ch ih =>
      exact ih (fun j hj => hcl j (by simpa [varsIn] using hj))
  | binary c f l r ihl ihr =>
      have hl := ihl (fun j hj => hcl j (by simp [varsIn]; exact Or.inl hj))
      have hr := ihr (fun j hj => hcl j (by simp [varsIn]; exact Or.inr hj))
      simp [needCalc, hl, hr]
  | expr c nm ch ih =>
      exact ih (fun j hj => hcl j (by simpa [varsIn] using hj))

/-- The only error a calc() call can raise is the NotSet error coming out
of eval(); the unknown-expression error exists only at context level. -/
theorem calcC_error_eq {n : Node} {h : Heap} {e : Err} {c : Nat}
    (hec : calcC n h = (.error e, c)) : e = Err.notSet := by
  unfold calcC at hec
  by_cases hcond : ((cachedOf n h).isnan || needCalc n h) = true
  · rw [if_pos hcond] at hec
    rcases he : evalC n h with ⟨r, cnt⟩
    rw [he] at hec
    cases r with
    | ok w => simp at hec
    | error e' =>
        simp at hec
        exact hec.1 ▸ evalC_error_eq he
  · rw [if_neg hcond] at hec
    simp at hec

/-- Appending a fresh key to an association list makes it found. -/
theorem lookupA_append_self (m : List (String × Option Nat)) (k : String)
    (v : Option Nat) (hnone : lookupA m k = none) :
    lookupA (m ++ [(k, v)]) k = some v := by
  induction m with
  | nil => simp [lookupA]
  | cons p rest ih =>
      rcases p with ⟨k', v'⟩
      by_cases hk : k' = k
      · simp [lookupA, hk] at hnone
      · simp only [lookupA, List.cons_append] at hnone ⊢
        rw [if_neg hk] at hnone ⊢
        exact ih hnone

/-- Storing through the map always makes the stored value the one found
for its key. -/
theorem lookupA_upsert_self (m : List (String × Option Nat)) (k : String)
    (v : Option Nat) : lookupA (upsertA m k v) k = some v := by
  induction m with
  | nil => simp [upsertA, lookupA]
  | cons p rest ih =>
      rcases p with ⟨k', v'⟩
      by_cases hk : k' = k
      · simp [upsertA, hk, lookupA]
      · simp only [upsertA]
        rw [if_neg hk]
        simp only [lookupA]
        rw [if_neg hk]
        exact ih

/-- The evaluation loop over a concatenated index list runs the first
part and, if it did not throw, continues with the second part from the
state the first part left behind. -/
theorem evalAllGo_append (l1 l2 : List Nat) (store : List Node) (h : Heap) :
    evalAllGo (l1 ++ l2) store h = seqEval (evalAllGo l1 store h) l2 := by
  induction l1 generalizing store h with
  | nil => rfl
  | cons i rest ih =>
      simp only [List.cons_append, evalAllGo]
      rcases hc : calcC (store.getD i (Node.const Val.nan)) h with ⟨r, cnt⟩
      cases r with
      | ok t =>
          rcases t with ⟨v, n', h'⟩
          exact ih (store.set i n') h'
      | error e => rfl

/-- Reading the slot just past a list, after appending one element there,
yields that element. -/
theorem getD_concat_length {α : Type} (l : List α) (a d : α) :
    (l ++ [a]).getD l.length d = a := by
  induction l with
  | nil => rfl
  | cons x rest ih => simp [List.getD]

/-- C5: needsRecalculation is a pure, side-effect-free predicate (it is a
function of the node and heap, writing nothing), computed per variant:
always false for a Constant, whose evaluate() returns the construction
value; the OR of the two operands' dirtiness for a BinaryOperator; the
operand's dirtiness for a UnaryOperator; and the operand's dirtiness for
an Expression.  For operators and expressions it is derived on demand
from the operand chain, never stored in the node. -/
theorem C5_needCalc_variants : ∀ (h : Heap) (c cc : Val) (f : Val → Val)
    (g : Val → Val → Val) (l r ch : Node) (nm : String),
    needCalc (mkConst c) h = false
    ∧ (evalC (mkConst c) h).1 = .ok c
    ∧ needCalc (Node.binary cc g l r) h = (needCalc l h || needCalc r h)
    ∧ needCalc (Node.unary cc f ch) h = needCalc ch h
    ∧ needCalc (Node.expr cc nm ch) h = needCalc ch h := by
  intro h c cc f g l r ch nm
  exact ⟨rfl, rfl, rfl, rfl, rfl⟩

/-- C3 counterexample: the claim says evaluate() fails with NotSet if and
only if no value was ever assigned via set(), absence being a
distinguished unset state rather than a sentinel float.  The source uses
the NaN sentinel double, so after set(NaN) — a value assignment — the
variable is dirty (the set() took effect) yet evaluate() still fails with
NotSet. -/
theorem C3_cex :
    needCalc (Node.var 0) (setVar 0 Val.nan freshHeap) = true
    ∧ (evalC (Node.var 0) (setVar 0 Val.nan freshHeap)).1 =
        .error Err.notSet :=
  ⟨rfl, rfl⟩

/-- C3 amended: evaluate() on a Variable fails with NotSet if and only if
the cached double is NaN — which holds when no value was ever assigned,
but also after set(NaN), since absence is represented by the NaN sentinel
rather than a separate unset state; after set(v) with v not NaN,
evaluate() returns v. -/
theorem C3_amended (i : Nat) (h : Heap) (v : Val) (hv : v.isnan = false) :
    ((evalC (Node.var i) h).1 = .error Err.notSet ↔
        (h i).cached.isnan = true)
    ∧ (evalC (Node.var i) (setVar i v h)).1 = .ok v := by
  refine ⟨?_, ?_⟩
  · by_cases hb : (h i).cached.isnan = true
    · simp [evalC, hb]
    · simp only [Bool.not_eq_true] at hb
      simp [evalC, hb]
  · simp [evalC, setVar, hv]

/-- C3 witness: the amended statement at variable 0, the fresh heap and
the value 5. -/
theorem C3_amended_w :
    ((evalC (Node.var 0) freshHeap).1 = .error Err.notSet ↔
        (freshHeap 0).cached.isnan = true)
    ∧ (evalC (Node.var 0) (setVar 0 (Val.num 5) freshHeap)).1 =
        .ok (Val.num 5) :=
  C3_amended 0 freshHeap (Val.num 5) rfl

/-- C6 counterexample: the claim says that after set(v), freeze() changes
nothing but the dirty flag, so evaluate() afterwards returns the same v.
For v = NaN the flag and value behave as claimed, yet evaluate() after
freeze() fails with NotSet instead of returning the v that was set,
because NaN doubles as the unset sentinel. -/
theorem C6_cex :
    needCalc (Node.var 0) (setVar 0 Val.nan freshHeap) = true
    ∧ (freezeVar 0 (setVar 0 Val.nan freshHeap) 0).cached = Val.nan
    ∧ needCalc (Node.var 0) (freezeVar 0 (setVar 0 Val.nan freshHeap)) = false
    ∧ (evalC (Node.var 0) (freezeVar 0 (setVar 0 Val.nan freshHeap))).1 =
        .error Err.notSet :=
  ⟨rfl, rfl, rfl, rfl⟩

/-- C6 amended: for every Variable and every non-NaN v, after set(v) the
variable needs recalculation; a calc() call returns v and leaves the
dirty flag set (so dirtiness persists until freeze); freeze() clears the
flag and leaves the stored value untouched, after which evaluate()
returns the same v.  (For v = NaN, set() and freeze() move the flag the
same way but evaluate() fails with NotSet, NaN being the unset
sentinel.) -/
theorem C6_amended (i : Nat) (v : Val) (h : Heap) (hv : v.isnan = false) :
    needCalc (Node.var i) (setVar i v h) = true
    ∧ calcC (Node.var i) (setVar i v h) =
        (.ok (v, Node.var i, setCachedVar i v (setVar i v h)), 0)
    ∧ (setCachedVar i v (setVar i v h) i).needC = true
    ∧ needCalc (Node.var i) (freezeVar i (setVar i v h)) = false
    ∧ (freezeVar i (setVar i v h) i).cached = v
    ∧ (evalC (Node.var i) (freezeVar i (setVar i v h))).1 = .ok v := by
  refine ⟨?_, ?_, ?_, ?_, ?_, ?_⟩
  · simp [needCalc, setVar]
  · simp [calcC, cachedOf, needCalc, setVar, hv, evalC, withCache]
  · simp [setCachedVar, setVar]
  · simp [needCalc, freezeVar]
  · simp [freezeVar, setVar]
  · simp [evalC, freezeVar, setVar, hv]

/-- C6 witness: the amended statement at variable 0, value 5 and the
fresh heap. -/
theorem C6_amended_w :
    needCalc (Node.var 0) (setVar 0 (Val.num 5) freshHeap) = true
    ∧ calcC (Node.var 0) (setVar 0 (Val.num 5) freshHeap) =
        (.ok (Val.num 5, Node.var 0,
          setCachedVar 0 (Val.num 5) (setVar 0 (Val.num 5) freshHeap)), 0)
    ∧ (setCachedVar 0 (Val.num 5) (setVar 0 (Val.num 5) freshHeap) 0).needC
        = true
    ∧ needCalc (Node.var 0) (freezeVar 0 (setVar 0 (Val.num 5) freshHeap))
        = false
    ∧ (freezeVar 0 (setVar 0 (Val.num 5) freshHeap) 0).cached = Val.num 5
    ∧ (evalC (Node.var 0) (freezeVar 0 (setVar 0 (Val.num 5) freshHeap))).1
        = .ok (Val.num 5) :=
  C6_amended 0 (Val.num 5) freshHeap rfl

/-- C8: a NotSet failure anywhere in the operand subgraph aborts the
whole evaluation for every ancestor up to the original caller — the
recursive eval() of any node containing an unset variable yields the
NotSet error, with no recovery or partial result, and the memoizing
calc() entry point propagates it likewise whenever the node's own cache
slot is still NaN (as it always is while a contained variable has never
been set, since no successful eval() can ever have primed it). -/
theorem C8_propagation (n : Node) (h : Heap)
    (hc : containsUnset n h = true)
    (hnan : (cachedOf n h).isnan = true) :
    (evalC n h).1 = .error Err.notSet
    ∧ (calcC n h).1 = .error Err.notSet := by
  refine ⟨evalC_unset hc, ?_⟩
  have hu := evalC_unset hc
  rcases he : evalC n h with ⟨r, cnt⟩
  rw [he] at hu
  cases r with
  | ok w => simp at hu
  | error e' =>
      simp at hu
      simp [calcC, hnan, he, hu]

/-- C8 witness: an addition node over a constant and the never-set
variable 0 in the fresh heap. -/
theorem C8_propagation_w :
    containsUnset
        (mkBinary addFn (mkConst (Val.num 1)) (Node.var 0)) freshHeap = true
    ∧ (cachedOf
        (mkBinary addFn (mkConst (Val.num 1)) (Node.var 0)) freshHeap).isnan
        = true
    ∧ (evalC (mkBinary addFn (mkConst (Val.num 1)) (Node.var 0))
        freshHeap).1 = .error Err.notSet
    ∧ (calcC (mkBinary addFn (mkConst (Val.num 1)) (Node.var 0))
        freshHeap).1 = .error Err.notSet :=
  ⟨rfl, rfl,
    (C8_propagation (mkBinary addFn (mkConst (Val.num 1)) (Node.var 0))
      freshHeap rfl rfl).1,
    (C8_propagation (mkBinary addFn (mkConst (Val.num 1)) (Node.var 0))
      freshHeap rfl rfl).2⟩

/-- Heap for the C2 counterexample: variable 0 holds 1 and is dirty,
variable 1 holds 3 and is clean (it was set and then frozen). -/
def c2Heap : Heap :=
  fun j => if j = 0 then ⟨Val.num 1, true⟩ else ⟨Val.num 3, false⟩

/-- Unary node over the clean variable 1, with its own cache already
primed to 6 by an earlier calc() call (dbl 3 = 6): a clean, memoized
operand. -/
def c2U : Node := Node.unary (Val.num 6) dbl (Node.var 1)

/-- Binary node, freshly constructed (cache NaN), over the memoized
operand c2U and the dirty variable 0. -/
def c2B : Node := Node.binary Val.nan addFn c2U (Node.var 0)

/-- C2 counterexample: the claim says evaluate() reaches operands only
through the memoizing entry point, so that operands apply their own
memoization during the recursive descent.  In the source the operators'
eval() calls the operands' raw eval() directly: recomputing c2B applies
two operator functions (dbl is re-applied inside the descent although its
node c2U is clean and cached), whereas the memoizing-descent evaluator
described by the claim applies only one (the addition). -/
theorem C2_cex :
    needCalc c2U c2Heap = false
    ∧ (cachedOf c2U c2Heap).isnan = false
    ∧ needCalc c2B c2Heap = true
    ∧ (calcC c2B c2Heap).2 = 2
    ∧ (calcSpecC c2B c2Heap).2 = 1 :=
  ⟨rfl, rfl, rfl, rfl, rfl⟩

/-- C2 amended: the source's operator eval() recomputes by calling the
operands' raw eval(), bypassing their memoization check, so a
recomputation re-evaluates the whole operand subgraph; what does hold is
the node's own memoization: after a successful evaluate() whose result is
not NaN, a repeated evaluate() without intervening dirtiness skips the
recursive descent and the operator function entirely (zero function
applications) and returns the memoized value, leaving node and heap
untouched. -/
theorem C2_amended (n : Node) (h : Heap) (v : Val) (n' : Node) (h' : Heap)
    (c : Nat) (hc : calcC n h = (.ok (v, n', h'), c))
    (hv : v.isnan = false) (hnc : needCalc n' h' = false) :
    calcC n' h' = (.ok (v, n', h'), 0) := by
  unfold calcC at hc
  by_cases hcond : ((cachedOf n h).isnan || needCalc n h) = true
  · rw [if_pos hcond] at hc
    rcases he : evalC n h with ⟨r, cnt⟩
    rw [he] at hc
    cases r with
    | ok w =>
        simp [Prod.mk.injEq] at hc
        obtain ⟨⟨hw, hnh2⟩, hcnt⟩ := hc
        have hcache : cachedOf n' h' = v := by
          have := cachedOf_withCache n w h
          rw [hnh2] at this
          rw [← hw]
          exact this
        unfold calcC
        rw [if_neg (by simp [hcache, hv, hnc])]
        rw [hcache]
    | error e => simp at hc
  · rw [if_neg hcond] at hc
    simp [Prod.mk.injEq] at hc
    obtain ⟨⟨hw, hn, hh⟩, hcnt⟩ := hc
    have h1 : (cachedOf n h).isnan = false := by rw [hw]; exact hv
    have h2 : needCalc n h = false := by rw [hn, hh]; exact hnc
    unfold calcC
    rw [← hn, ← hh]
    rw [if_neg (by simp [h1, h2])]
    rw [hw]

/-- C2 witness heap: variable 0 holds 2 and is clean. -/
def c2wHeap : Heap := fun _ => ⟨Val.num 2, false⟩

/-- C2 witness: a fresh addition node over the clean variable 0 and the
constant 3 computes 5 with one function application; the repeated call on
the updated node applies no function and returns the memoized 5. -/
theorem C2_amended_w :
    calcC (Node.binary (Val.num 5) addFn (Node.var 0)
        (Node.const (Val.num 3))) c2wHeap =
      (.ok (Val.num 5, Node.binary (Val.num 5) addFn (Node.var 0)
        (Node.const (Val.num 3)), c2wHeap), 0) :=
  C2_amended (mkBinary addFn (Node.var 0) (Node.const (Val.num 3))) c2wHeap
    (Val.num 5)
    (Node.binary (Val.num 5) addFn (Node.var 0) (Node.const (Val.num 3)))
    c2wHeap 1 rfl rfl rfl

/-- C9: looking up a name that was never registered returns a null/absent
node and, as a side effect of the map's default-inserting access, records
the name with an empty entry, so the same name afterwards counts as a
known expression (or known variable) even though nothing was ever
registered under it. -/
theorem C9_lookup_inserts (ctx : Ctx) (nm : String)
    (he : lookupA ctx.exprMap nm = none)
    (hv : lookupA ctx.varMap nm = none) :
    (getExpression ctx nm).1 = none
    ∧ isKnownExpression (getExpression ctx nm).2 nm = true
    ∧ (getVariable ctx nm).1 = none
    ∧ isKnownVariable (getVariable ctx nm).2 nm = true := by
  refine ⟨?_, ?_, ?_, ?_⟩
  · simp [getExpression, he]
  · simp [getExpression, he, isKnownExpression]
    rw [lookupA_append_self ctx.exprMap nm none he]
    rfl
  · simp [getVariable, hv]
  · simp [getVariable, hv, isKnownVariable]
    rw [lookupA_append_self ctx.varMap nm none hv]
    rfl

/-- C9 witness: the empty context and an arbitrary name. -/
theorem C9_lookup_inserts_w :
    (getExpression emptyCtx "x").1 = none
    ∧ isKnownExpression (getExpression emptyCtx "x").2 "x" = true
    ∧ (getVariable emptyCtx "x").1 = none
    ∧ isKnownVariable (getVariable emptyCtx "x").2 "x" = true :=
  C9_lookup_inserts emptyCtx "x" rfl rfl

/-- C10: registering an expression under an already-registered name
replaces the name-to-expression map entry (lookup returns only the new
node) but appends the new node to the ordered evaluation list without
removing the old one: the previous list is a prefix of the new one, so
the old expression keeps its original position and evaluation-loop runs
over the new list first perform exactly the old sequence — old node
included — and then evaluate the newly appended node. -/
theorem C10_duplicate_registration (ctx : Ctx) (nm : String) (e : Node)
    (i : Nat) (hp : Heap)
    (_hdup : lookupA ctx.exprMap nm = some (some i))
    (hmem : i ∈ ctx.exprList) :
    lookupA (addExpression nm e ctx).exprMap nm =
        some (some ctx.exprStore.length)
    ∧ (addExpression nm e ctx).exprList =
        ctx.exprList ++ [ctx.exprStore.length]
    ∧ i ∈ (addExpression nm e ctx).exprList
    ∧ (addExpression nm e ctx).exprStore.getD ctx.exprStore.length
        (Node.const Val.nan) = e
    ∧ evalAllGo (addExpression nm e ctx).exprList
        (addExpression nm e ctx).exprStore hp =
      seqEval (evalAllGo ctx.exprList (addExpression nm e ctx).exprStore hp)
        [ctx.exprStore.length] := by
  refine ⟨?_, rfl, ?_, ?_, ?_⟩
  · exact lookupA_upsert_self ctx.exprMap nm (some ctx.exprStore.length)
  · simp [addExpression]
    exact Or.inl hmem
  · simp only [addExpression]
    exact getD_concat_length ctx.exprStore e (Node.const Val.nan)
  · exact evalAllGo_append ctx.exprList [ctx.exprStore.length]
      (addExpression nm e ctx).exprStore hp

/-- Context for the C10 witness: variable a, then the expression named E
wrapping dbl(a). -/
def c10Ctx : Ctx :=
  addExpression "E" (mkExpr "E" (mkUnary dbl (Node.var 0)))
    (addVariable "a" 0 emptyCtx)

/-- C10 witness: re-registering the name E with a new constant-7
expression, with variable 0 set to 5. -/
theorem C10_duplicate_registration_w :
    lookupA (addExpression "E" (mkExpr "E" (mkConst (Val.num 7)))
        c10Ctx).exprMap "E" = some (some c10Ctx.exprStore.length)
    ∧ (addExpression "E" (mkExpr "E" (mkConst (Val.num 7)))
        c10Ctx).exprList = c10Ctx.exprList ++ [c10Ctx.exprStore.length]
    ∧ 0 ∈ (addExpression "E" (mkExpr "E" (mkConst (Val.num 7)))
        c10Ctx).exprList
    ∧ (addExpression "E" (mkExpr "E" (mkConst (Val.num 7)))
        c10Ctx).exprStore.getD c10Ctx.exprStore.length (Node.const Val.nan)
        = mkExpr "E" (mkConst (Val.num 7))
    ∧ evalAllGo (addExpression "E" (mkExpr "E" (mkConst (Val.num 7)))
          c10Ctx).exprList
        (addExpression "E" (mkExpr "E" (mkConst (Val.num 7)))
          c10Ctx).exprStore (setVar 0 (Val.num 5) freshHeap) =
      seqEval (evalAllGo c10Ctx.exprList
          (addExpression "E" (mkExpr "E" (mkConst (Val.num 7)))
            c10Ctx).exprStore (setVar 0 (Val.num 5) freshHeap))
        [c10Ctx.exprStore.length] :=
  C10_duplicate_registration c10Ctx "E" (mkExpr "E" (mkConst (Val.num 7)))
    0 (setVar 0 (Val.num 5) freshHeap) rfl (by decide)

/-- Context for C7: variable a (id 0) and the two expressions E1 = a*2
and E2 = a*3 registered in that order, sharing the same variable. -/
def c7Ctx : Ctx :=
  addExpression "E2" (mkExpr "E2" (mkBinary mulFn (Node.var 0)
      (mkConst (Val.num 3))))
    (addExpression "E1" (mkExpr "E1" (mkBinary mulFn (Node.var 0)
        (mkConst (Val.num 2))))
      (addVariable "a" 0 emptyCtx))

/-- Heap for C7: a.set(5). -/
def c7Heap : Heap := setVar 0 (Val.num 5) freshHeap

/-- C7: shared-subgraph consistency.  After a.set(5), recalculate(E1)
returns 10, and a subsequent recalculate(E2) on the resulting context and
heap returns 15 — the updated value of a is reflected in E2 even though
only E1 was the explicit target of the first call, because that call
evaluated all registered expressions before freezing a.  The second
call's final evaluation is a pure cache read (zero function
applications). -/
theorem C7_shared_subgraph :
    (ctxCalc c7Ctx c7Heap "E1").1 = .ok (Val.num 10)
    ∧ (ctxCalc (ctxCalc c7Ctx c7Heap "E1").2.1
        (ctxCalc c7Ctx c7Heap "E1").2.2.1 "E2").1 = .ok (Val.num 15)
    ∧ (ctxCalc (ctxCalc c7Ctx c7Heap "E1").2.1
        (ctxCalc c7Ctx c7Heap "E1").2.2.1 "E2").2.2.2 = 0 :=
  ⟨rfl, rfl, rfl⟩

/-- Context for the C1 counterexample: one registered expression named E
wrapping dbl(a), with the variable a deliberately not registered in the
context's variable map. -/
def c1Ctx : Ctx :=
  addExpression "E" (mkExpr "E" (mkUnary dbl (Node.var 0))) emptyCtx

/-- Heap for the C1 counterexample: a.set(5). -/
def c1Heap : Heap := setVar 0 (Val.num 5) freshHeap

/-- C1 counterexample: the claim says the final evaluate() on the target
returns the memoized value without recomputation, for every context and
registered target.  Here the target's variable is not in the context's
variable map, so the end-of-pass freeze never cleans it; the final
evaluate() finds the target dirty and recomputes, applying the operator
function once more (final-call count 1, not 0). -/
theorem C1_cex :
    lookupA c1Ctx.exprMap "E" = some (some 0)
    ∧ (ctxCalc c1Ctx c1Heap "E").1 = .ok (Val.num 10)
    ∧ (ctxCalc c1Ctx c1Heap "E").2.2.2 = 1 :=
  ⟨rfl, rfl, rfl⟩

/-- C1 amended: recalculate(name) first runs evaluate() over every
registered expression in registration order (step1), then freezes every
registered variable (step2), and finally returns evaluate() on the target
expression; provided the prior steps succeeded, every variable occurring
in the target's subgraph is registered with the context, and the target's
post-pass cached value is not NaN, that final evaluate() is a pure cache
hit: it returns the memoized value with zero function applications and
leaves the heap untouched. -/
theorem C1_amended (ctx : Ctx) (h : Heap) (nm : String) (i : Nat)
    (hpre : (step1 ctx h).1 = none)
    (hfz : (step2 ctx h).1 = none)
    (hlook : lookupA ctx.exprMap nm = some (some i))
    (hvars : ∀ j ∈ varsIn (targetNode ctx h i),
        ctx.varMap.any (fun p => p.2 == some j) = true)
    (hnn : (cachedOf (targetNode ctx h i) (step2 ctx h).2).isnan = false) :
    ctxCalc ctx h nm =
      (.ok (cachedOf (targetNode ctx h i) (step2 ctx h).2),
       { ctx with exprStore :=
           (step1 ctx h).2.1.set i (targetNode ctx h i) },
       (step2 ctx h).2, 0) := by
  have hclean : needCalc (targetNode ctx h i) (step2 ctx h).2 = false := by
    apply needCalc_false_of_clean
    intro j hj
    exact freezeAllGo_clean ctx.varMap (step1 ctx h).2.2 (step2 ctx h).2 j
      rfl hfz (hvars j hj)
  simp only [step1, step2, targetNode] at hpre hfz hnn hclean ⊢
  rcases hE : evalAllGo ctx.exprList ctx.exprStore h with ⟨e1, store1, h1⟩
  rw [hE] at hpre hfz hnn hclean
  cases e1 with
  | some e => simp at hpre
  | none =>
      rcases hF : freezeAllGo ctx.varMap h1 with ⟨e2, h2⟩
      rw [hF] at hfz hnn hclean
      cases e2 with
      | some e => simp at hfz
      | none =>
          dsimp only at hnn hclean
          have hcond : ((cachedOf (store1.getD i (Node.const Val.nan))
                h2).isnan
              || needCalc (store1.getD i (Node.const Val.nan)) h2)
              = false := by
            rw [hnn, hclean]
            rfl
          have hit : calcC (store1.getD i (Node.const Val.nan)) h2 =
              (.ok (cachedOf (store1.getD i (Node.const Val.nan)) h2,
                store1.getD i (Node.const Val.nan), h2), 0) := by
            unfold calcC
            rw [hcond]
            rfl
          simp only [ctxCalc, hE, hF, hlook]
          rw [hit]

/-- Context for the C1 witness: variable a registered, and the expression
E wrapping dbl(a). -/
def c1wCtx : Ctx :=
  addExpression "E" (mkExpr "E" (mkUnary dbl (Node.var 0)))
    (addVariable "a" 0 emptyCtx)

/-- Heap for the C1 witness: a.set(2). -/
def c1wHeap : Heap := setVar 0 (Val.num 2) freshHeap

/-- C1 witness: the amended statement at the concrete context with its
variable registered; the final evaluate() is a cache read with zero
function applications. -/
theorem C1_amended_w :
    ctxCalc c1wCtx c1wHeap "E" =
      (.ok (cachedOf (targetNode c1wCtx c1wHeap 0) (step2 c1wCtx c1wHeap).2),
       { c1wCtx with exprStore :=
           (step1 c1wCtx c1wHeap).2.1.set 0 (targetNode c1wCtx c1wHeap 0) },
       (step2 c1wCtx c1wHeap).2, 0) :=
  C1_amended c1wCtx c1wHeap "E" 0 rfl rfl rfl (by decide) rfl

/-- C4: with the evaluate-all and freeze-all prelude succeeding,
recalculate(name) fails with UnknownExpression exactly when the target
name is absent from the expression map — the check happens only after
steps 1 and 2, so even the failing call returns with every registered
expression already evaluated (the step-1 store) and every registered
variable already frozen (the step-2 heap): the error does not leave the
context state unchanged. -/
theorem C4_unknown_target (ctx : Ctx) (h : Heap) (nm : String)
    (hpre : (step1 ctx h).1 = none)
    (hfz : (step2 ctx h).1 = none) :
    ((ctxCalc ctx h nm).1 = .error Err.unknownExpression ↔
        lookupA ctx.exprMap nm = none)
    ∧ (lookupA ctx.exprMap nm = none →
        ctxCalc ctx h nm = (.error Err.unknownExpression,
          { ctx with exprStore := (step1 ctx h).2.1 },
          (step2 ctx h).2, 0))
    ∧ (∀ j, ctx.varMap.any (fun p => p.2 == some j) = true →
        ((ctxCalc ctx h nm).2.2.1 j).needC = false) := by
  simp only [step1, step2] at hpre hfz ⊢
  rcases hE : evalAllGo ctx.exprList ctx.exprStore h with ⟨e1, store1, h1⟩
  rw [hE] at hpre hfz
  cases e1 with
  | some e => simp at hpre
  | none =>
      rcases hF : freezeAllGo ctx.varMap h1 with ⟨e2, h2⟩
      rw [hF] at hfz
      cases e2 with
      | some e => simp at hfz
      | none =>
          have hfrozen : ∀ j, ctx.varMap.any (fun p => p.2 == some j) = true
              → (h2 j).needC = false := by
            intro j hj
            exact freezeAllGo_clean ctx.varMap h1 h2 j (by rw [hF]) (by rw [hF]) hj
          refine ⟨?_, ?_, ?_⟩
          · rcases hL : lookupA ctx.exprMap nm with _ | oi
            · simp [ctxCalc, hE, hF, hL]
            · cases oi with
              | none => simp [ctxCalc, hE, hF, hL]
              | some i =>
                  rcases hT : calcC (store1.getD i (Node.const Val.nan)) h2
                    with ⟨rT, cT⟩
                  cases rT with
                  | ok t =>
                      rcases t with ⟨v, n', h3⟩
                      simp only [ctxCalc, hE, hF, hL, hT]
                      simp
                  | error e =>
                      have he : e = Err.notSet := calcC_error_eq hT
                      subst he
                      simp only [ctxCalc, hE, hF, hL, hT]
                      simp
          · intro hno
            simp [ctxCalc, hE, hF, hno]
          · intro j hj
            rcases hL : lookupA ctx.exprMap nm with _ | oi
            · simp only [ctxCalc, hE, hF, hL]
              exact hfrozen j hj
            · cases oi with
              | none =>
                  simp only [ctxCalc, hE, hF, hL]
                  exact hfrozen j hj
              | some i =>
                  rcases hT : calcC (store1.getD i (Node.const Val.nan)) h2
                    with ⟨rT, cT⟩
                  cases rT with
                  | ok t =>
                      rcases t with ⟨v, n', h3⟩
                      simp only [ctxCalc, hE, hF, hL, hT]
                      have := calcC_preserves_needC hT j
                      rw [this]
                      exact hfrozen j hj
                  | error e =>
                      simp only [ctxCalc, hE, hF, hL, hT]
                      exact hfrozen j hj

/-- Context for the C4 witness: variables a and b registered, and the
expression E wrapping a+b. -/
def c4wCtx : Ctx :=
  addExpression "E" (mkExpr "E" (mkBinary addFn (Node.var 0) (Node.var 1)))
    (addVariable "b" 1 (addVariable "a" 0 emptyCtx))

/-- Heap for the C4 witness: a.set(2), b.set(3). -/
def c4wHeap : Heap := setVar 1 (Val.num 3) (setVar 0 (Val.num 2) freshHeap)

/-- C4 witness: recalculating toward the unregistered name missing fails
with UnknownExpression, with every expression already evaluated and the
registered variable a already frozen in the returned state. -/
theorem C4_unknown_target_w :
    ((ctxCalc c4wCtx c4wHeap "missing").1 = .error Err.unknownExpression ↔
        lookupA c4wCtx.exprMap "missing" = none)
    ∧ ctxCalc c4wCtx c4wHeap "missing" = (.error Err.unknownExpression,
        { c4wCtx with exprStore := (step1 c4wCtx c4wHeap).2.1 },
        (step2 c4wCtx c4wHeap).2, 0)
    ∧ ((ctxCalc c4wCtx c4wHeap "missing").2.2.1 0).needC = false :=
  ⟨(C4_unknown_target c4wCtx c4wHeap "missing" rfl rfl).1,
   (C4_unknown_target c4wCtx c4wHeap "missing" rfl rfl).2.1 rfl,
   (C4_unknown_target c4wCtx c4wHeap "missing" rfl rfl).2.2 0 (by decide)⟩
